import Mathlib

/-!
Verification development for the routine-studio audio preprocessing engine
and its TTS front-end helpers.

The TypeScript front-end helpers (`parseTimeToSeconds`, `formatSecondsToTime`
from the TTS settings modal, and `YouTubeCloneForm.handleExtract`) are embedded
directly from the source.  JS strings are modelled as `List Char` wrapped in
Lean `String`s at the API boundary; JS numbers restricted to the integer
inputs the claims quantify over are modelled as `Nat`/`Int`.
-/

/-- The set of whitespace characters relevant to `String.prototype.trim` for
the inputs considered here (space, tab, newline, carriage return). -/
def isWs (c : Char) : Bool :=
  c == ' ' || c == '\t' || c == '\n' || c == '\r'

/-- Embedding of `time.trim()`: drop leading and trailing whitespace. -/
def jsTrim (cs : List Char) : List Char :=
  ((cs.dropWhile isWs).reverse.dropWhile isWs).reverse

/-- One step of reading a decimal digit string left to right. -/
def dvStep (a : Nat) (c : Char) : Nat := 10 * a + (c.toNat - 48)

/-- Numeric value of a decimal digit string. -/
def digitsVal (cs : List Char) : Nat := cs.foldl dvStep 0

/-- Decimal rendering of a natural number, as JS string interpolation of an
integer-valued number produces it (most significant digit first, no sign,
no leading zeros). -/
def natToChars (n : Nat) : List Char :=
  if h : n < 10 then [Char.ofNat (48 + n)]
  else natToChars (n / 10) ++ [Char.ofNat (48 + n % 10)]
decreasing_by exact Nat.div_lt_self (by omega) (by omega)

/-- Embedding of `String.prototype.split(':')`: split at every colon, keeping
empty pieces, so that the result always has one more piece than there are
colons. -/
def splitOnColon : List Char → List (List Char)
  | [] => [[]]
  | c :: rest =>
    if c = ':' then [] :: splitOnColon rest
    else
      match splitOnColon rest with
      | [] => [[c]]
      | p :: ps => (c :: p) :: ps

/-- Sign-and-digit-prefix reading of `parseInt(p, 10)` after leading
whitespace has been skipped; `NaN` (no digit prefix) is turned into `0` by
the source's `|| 0`. -/
def jsParseCore : List Char → Int
  | [] => 0
  | c :: rest =>
    if c = '-' then
      let ds := rest.takeWhile Char.isDigit
      if ds.isEmpty then 0 else -(digitsVal ds : Int)
    else if c = '+' then
      let ds := rest.takeWhile Char.isDigit
      if ds.isEmpty then 0 else (digitsVal ds : Int)
    else
      let ds := (c :: rest).takeWhile Char.isDigit
      if ds.isEmpty then 0 else (digitsVal ds : Int)

/-- Embedding of `parseInt(p, 10) || 0` as the source applies it to each
colon-separated part: skip leading whitespace, then read an optional sign
and the longest digit prefix. -/
def jsParseIntOr0 (cs : List Char) : Int :=
  jsParseCore (cs.dropWhile isWs)

/-- Combination of the parsed colon-separated parts: two parts are `M:SS`,
three parts are `H:MM:SS`, any other shape yields 0. -/
def combineParts : List Int → Int
  | [a, b] => a * 60 + b
  | [a, b, c] => a * 3600 + b * 60 + c
  | _ => 0

/-- Embedding of `parseTimeToSeconds` (TTS settings modal): empty input is 0;
an all-digit input is already seconds; otherwise the colon-separated parts
are parsed and combined. -/
def parseTimeChars (cs : List Char) : Int :=
  if cs.isEmpty then 0
  else if !(jsTrim cs).isEmpty && (jsTrim cs).all Char.isDigit then (digitsVal (jsTrim cs) : Int)
  else combineParts ((splitOnColon (jsTrim cs)).map jsParseIntOr0)

/-- String-level wrapper for `parseTimeToSeconds` (src/unnamed/part_005). -/
def parseTimeToSeconds (s : String) : Int := parseTimeChars s.data

/-- Two-character left zero-padding, `String.prototype.padStart(2, '0')`. -/
def padStart2 (cs : List Char) : List Char :=
  if 2 ≤ cs.length then cs else List.replicate (2 - cs.length) '0' ++ cs

/-- Embedding of `formatSecondsToTime` (src/unnamed/part_005): negative
inputs are clamped to 0; under an hour the output is `M:SS`, otherwise
`H:MM:SS`, with the minute and second fields zero-padded to two characters. -/
def formatSecondsToTime (seconds : Int) : String :=
  if seconds.toNat / 3600 > 0 then
    ⟨natToChars (seconds.toNat / 3600) ++
      (':' :: (padStart2 (natToChars ((seconds.toNat % 3600) / 60)) ++
        (':' :: padStart2 (natToChars (seconds.toNat % 60)))))⟩
  else
    ⟨natToChars ((seconds.toNat % 3600) / 60) ++
      (':' :: padStart2 (natToChars (seconds.toNat % 60)))⟩

/-- A digit character is printed by `Char.ofNat` of its code point. -/
theorem toNat_ofNat_digit (m : Nat) (h : m < 10) :
    (Char.ofNat (48 + m)).toNat = 48 + m := by
  interval_cases m <;> rfl

/-- Digit characters rendered by `natToChars` satisfy `Char.isDigit`. -/
theorem isDigit_ofNat_digit (m : Nat) (h : m < 10) :
    (Char.ofNat (48 + m)).isDigit = true := by
  interval_cases m <;> decide

theorem natToChars_small {n : Nat} (h : n < 10) :
    natToChars n = [Char.ofNat (48 + n)] := by
  rw [natToChars]
  simp [h]

theorem natToChars_big {n : Nat} (h : ¬ n < 10) :
    natToChars n = natToChars (n / 10) ++ [Char.ofNat (48 + n % 10)] := by
  conv_lhs => rw [natToChars]
  simp [h]

theorem natToChars_ne_nil (n : Nat) : natToChars n ≠ [] := by
  by_cases h : n < 10
  · rw [natToChars_small h]; simp
  · rw [natToChars_big h]; simp

theorem natToChars_all_digit (n : Nat) : ∀ c ∈ natToChars n, c.isDigit = true := by
  induction n using Nat.strong_induction_on with
  | _ n ih =>
    by_cases h : n < 10
    · rw [natToChars_small h]
      intro c hc
      simp at hc
      subst hc
      exact isDigit_ofNat_digit n h
    · rw [natToChars_big h]
      intro c hc
      rcases List.mem_append.mp hc with h1 | h2
      · exact ih (n / 10) (Nat.div_lt_self (by omega) (by omega)) c h1
      · simp at h2
        subst h2
        exact isDigit_ofNat_digit (n % 10) (Nat.mod_lt _ (by omega))

theorem foldl_dvStep_natToChars (n : Nat) :
    ∀ a : Nat, (natToChars n).foldl dvStep a = a * 10 ^ (natToChars n).length + n := by
  induction n using Nat.strong_induction_on with
  | _ n ih =>
    intro a
    by_cases h : n < 10
    · rw [natToChars_small h]
      have hc := toNat_ofNat_digit n h
      simp [dvStep, hc]
      omega
    · rw [natToChars_big h, List.foldl_append]
      rw [ih (n / 10) (Nat.div_lt_self (by omega) (by omega)) a]
      have hc := toNat_ofNat_digit (n % 10) (Nat.mod_lt _ (by omega))
      simp only [List.foldl_cons, List.foldl_nil, dvStep, hc, List.length_append,
        List.length_cons, List.length_nil, pow_succ]
      set E := 10 ^ (natToChars (n / 10)).length with hE
      have hre2 : a * (E * 10) = a * E * 10 := by ring
      rw [hre2]
      set X := a * E with hX
      omega

theorem digitsVal_natToChars (n : Nat) : digitsVal (natToChars n) = n := by
  have := foldl_dvStep_natToChars n 0
  simpa [digitsVal] using this

/-- Reading a digit string through zeros keeps the accumulator at zero. -/
theorem foldl_dvStep_replicate_zero (k : Nat) :
    (List.replicate k '0').foldl dvStep 0 = 0 := by
  induction k with
  | zero => rfl
  | succ k ih => simpa [List.replicate_succ, dvStep] using ih

theorem digitsVal_padStart2 (cs : List Char) :
    digitsVal (padStart2 cs) = digitsVal cs := by
  unfold padStart2
  split
  · rfl
  · unfold digitsVal
    rw [List.foldl_append, foldl_dvStep_replicate_zero]

theorem padStart2_all_digit {cs : List Char} (h : ∀ c ∈ cs, c.isDigit = true) :
    ∀ c ∈ padStart2 cs, c.isDigit = true := by
  unfold padStart2
  split
  · exact h
  · intro c hc
    rcases List.mem_append.mp hc with h1 | h2
    · have := List.eq_of_mem_replicate h1
      subst this
      decide
    · exact h c h2

theorem padStart2_ne_nil (cs : List Char) : padStart2 cs ≠ [] := by
  unfold padStart2
  split
  · intro he
    subst he
    simp_all
  · rename_i h
    have : 2 - cs.length ≠ 0 := by omega
    cases hk : 2 - cs.length with
    | zero => exact absurd hk this
    | succ k => simp [hk, List.replicate_succ]

/-- A digit character is none of the structural characters the parser treats
specially. -/
theorem digit_not_ws {c : Char} (h : c.isDigit = true) : isWs c = false := by
  cases hw : isWs c
  · rfl
  · exfalso
    simp [isWs] at hw
    rcases hw with (((h1 | h1) | h1) | h1) <;> subst h1 <;> simp [Char.isDigit] at h

theorem digit_ne_colon {c : Char} (h : c.isDigit = true) : c ≠ ':' := by
  intro he
  subst he
  simp [Char.isDigit] at h

theorem digit_ne_minus {c : Char} (h : c.isDigit = true) : c ≠ '-' := by
  intro he
  subst he
  simp [Char.isDigit] at h

theorem digit_ne_plus {c : Char} (h : c.isDigit = true) : c ≠ '+' := by
  intro he
  subst he
  simp [Char.isDigit] at h

theorem colon_not_mem_of_digits {cs : List Char} (h : ∀ c ∈ cs, c.isDigit = true) :
    ':' ∉ cs := by
  intro hm
  exact digit_ne_colon (h ':' hm) rfl

theorem dropWhile_of_none {p : α → Bool} {l : List α} (h : ∀ c ∈ l, p c = false) :
    l.dropWhile p = l := by
  cases l with
  | nil => rfl
  | cons a as =>
    rw [List.dropWhile_cons]
    simp [h a (List.mem_cons_self a as)]

theorem takeWhile_of_all {p : α → Bool} {l : List α} (h : ∀ c ∈ l, p c = true) :
    l.takeWhile p = l := by
  induction l with
  | nil => rfl
  | cons a as ih =>
    rw [List.takeWhile_cons]
    simp [h a (List.mem_cons_self a as), ih fun c hc => h c (List.mem_cons_of_mem a hc)]

theorem jsTrim_of_no_ws {cs : List Char} (h : ∀ c ∈ cs, isWs c = false) :
    jsTrim cs = cs := by
  unfold jsTrim
  rw [dropWhile_of_none h,
    dropWhile_of_none (fun c hc => h c (List.mem_reverse.mp hc)), List.reverse_reverse]

theorem splitOnColon_ne_nil (cs : List Char) : splitOnColon cs ≠ [] := by
  induction cs with
  | nil => simp [splitOnColon]
  | cons c rest ih =>
    rw [splitOnColon]
    split
    · simp
    · split
      · simp
      · simp

theorem splitOnColon_no_colon {cs : List Char} (h : ':' ∉ cs) :
    splitOnColon cs = [cs] := by
  induction cs with
  | nil => rfl
  | cons c rest ih =>
    have hc : ¬ c = ':' := fun he => h (he ▸ List.mem_cons_self c rest)
    have hr : ':' ∉ rest := fun hm => h (List.mem_cons_of_mem c hm)
    rw [splitOnColon, if_neg hc, ih hr]

theorem splitOnColon_append {xs ys : List Char} (h : ':' ∉ xs) :
    splitOnColon (xs ++ ':' :: ys) = xs :: splitOnColon ys := by
  induction xs with
  | nil => simp [splitOnColon]
  | cons x xs' ih =>
    have hx : ¬ x = ':' := fun he => h (he ▸ List.mem_cons_self x xs')
    have hxs : ':' ∉ xs' := fun hm => h (List.mem_cons_of_mem x hm)
    rw [List.cons_append, splitOnColon, if_neg hx, ih hxs]

/-- `parseInt(p, 10) || 0` on a non-empty all-digit string is its decimal
value. -/
theorem jsParseIntOr0_digits {cs : List Char} (h1 : cs ≠ [])
    (h2 : ∀ c ∈ cs, c.isDigit = true) : jsParseIntOr0 cs = (digitsVal cs : Int) := by
  cases cs with
  | nil => exact absurd rfl h1
  | cons c rest =>
    have hcd : c.isDigit = true := h2 c (List.mem_cons_self c rest)
    have hnw : ∀ x ∈ c :: rest, isWs x = false := fun x hx => digit_not_ws (h2 x hx)
    unfold jsParseIntOr0
    rw [dropWhile_of_none hnw, jsParseCore]
    rw [if_neg (digit_ne_minus hcd), if_neg (digit_ne_plus hcd)]
    rw [takeWhile_of_all h2]
    simp

/-- Parsing a two-chunk `M:SS` string of digit chunks. -/
theorem parseTimeChars_two {A B : List Char}
    (hA : A ≠ []) (hAd : ∀ c ∈ A, c.isDigit = true)
    (hB : B ≠ []) (hBd : ∀ c ∈ B, c.isDigit = true) :
    parseTimeChars (A ++ ':' :: B) = (digitsVal A : Int) * 60 + (digitsVal B : Int) := by
  have hne : A ++ ':' :: B ≠ [] := by simp
  have hnw : ∀ c ∈ A ++ ':' :: B, isWs c = false := by
    intro c hc
    rcases List.mem_append.mp hc with h1 | h2
    · exact digit_not_ws (hAd c h1)
    · rcases List.mem_cons.mp h2 with h3 | h4
      · subst h3; decide
      · exact digit_not_ws (hBd c h4)
  have htrim : jsTrim (A ++ ':' :: B) = A ++ ':' :: B := jsTrim_of_no_ws hnw
  have hall : (A ++ ':' :: B).all Char.isDigit = false := by
    apply eq_false_of_ne_true
    intro hz
    exact absurd (List.all_eq_true.mp hz ':' (by simp)) (by decide)
  have hsplit : splitOnColon (A ++ ':' :: B) = [A, B] := by
    rw [splitOnColon_append (colon_not_mem_of_digits hAd),
      splitOnColon_no_colon (colon_not_mem_of_digits hBd)]
  unfold parseTimeChars
  rw [if_neg (by simp [hne]), htrim, hall]
  simp only [Bool.and_false, if_false, Bool.false_eq_true]
  rw [hsplit]
  simp only [List.map]
  rw [jsParseIntOr0_digits hA hAd, jsParseIntOr0_digits hB hBd]
  rfl

/-- Parsing a three-chunk `H:MM:SS` string of digit chunks. -/
theorem parseTimeChars_three {A B C : List Char}
    (hA : A ≠ []) (hAd : ∀ c ∈ A, c.isDigit = true)
    (hB : B ≠ []) (hBd : ∀ c ∈ B, c.isDigit = true)
    (hC : C ≠ []) (hCd : ∀ c ∈ C, c.isDigit = true) :
    parseTimeChars (A ++ ':' :: (B ++ ':' :: C)) =
      (digitsVal A : Int) * 3600 + (digitsVal B : Int) * 60 + (digitsVal C : Int) := by
  have hne : A ++ ':' :: (B ++ ':' :: C) ≠ [] := by simp
  have hnw : ∀ c ∈ A ++ ':' :: (B ++ ':' :: C), isWs c = false := by
    intro c hc
    rcases List.mem_append.mp hc with h1 | h2
    · exact digit_not_ws (hAd c h1)
    · rcases List.mem_cons.mp h2 with h3 | h4
      · subst h3; decide
      · rcases List.mem_append.mp h4 with h5 | h6
        · exact digit_not_ws (hBd c h5)
        · rcases List.mem_cons.mp h6 with h7 | h8
          · subst h7; decide
          · exact digit_not_ws (hCd c h8)
  have htrim := jsTrim_of_no_ws hnw
  have hall : (A ++ ':' :: (B ++ ':' :: C)).all Char.isDigit = false := by
    apply eq_false_of_ne_true
    intro hz
    exact absurd (List.all_eq_true.mp hz ':' (by simp)) (by decide)
  have hsplit : splitOnColon (A ++ ':' :: (B ++ ':' :: C)) = [A, B, C] := by
    rw [splitOnColon_append (colon_not_mem_of_digits hAd),
      splitOnColon_append (colon_not_mem_of_digits hBd),
      splitOnColon_no_colon (colon_not_mem_of_digits hCd)]
  unfold parseTimeChars
  rw [if_neg (by simp [hne]), htrim, hall]
  simp only [Bool.and_false, if_false, Bool.false_eq_true]
  rw [hsplit]
  simp only [List.map]
  rw [jsParseIntOr0_digits hA hAd, jsParseIntOr0_digits hB hBd, jsParseIntOr0_digits hC hCd]
  rfl

/-- C8: the TTS settings modal's second-count formatter and time-string
parser are mutually inverse on non-negative integer second counts:
`parseTimeToSeconds (formatSecondsToTime s) = s` for every natural `s`. -/
theorem parse_format_roundtrip (n : Nat) :
    parseTimeToSeconds (formatSecondsToTime (n : Int)) = (n : Int) := by
  have hm60 : (n % 3600) / 60 < 60 := by omega
  have hs60 : n % 60 < 60 := by omega
  have hmB := natToChars_all_digit ((n % 3600) / 60)
  have hsB := natToChars_all_digit (n % 60)
  by_cases hh : n / 3600 > 0
  · have hfmt : formatSecondsToTime (n : Int) =
        ⟨natToChars (n / 3600) ++
          (':' :: (padStart2 (natToChars ((n % 3600) / 60)) ++
            (':' :: padStart2 (natToChars (n % 60)))))⟩ := by
      unfold formatSecondsToTime
      rw [Int.toNat_ofNat, if_pos hh]
    rw [hfmt]
    show parseTimeChars (natToChars (n / 3600) ++
      (':' :: (padStart2 (natToChars ((n % 3600) / 60)) ++
        (':' :: padStart2 (natToChars (n % 60)))))) = (n : Int)
    rw [parseTimeChars_three (natToChars_ne_nil _) (natToChars_all_digit _)
      (padStart2_ne_nil _) (padStart2_all_digit hmB)
      (padStart2_ne_nil _) (padStart2_all_digit hsB)]
    rw [digitsVal_natToChars, digitsVal_padStart2, digitsVal_padStart2,
      digitsVal_natToChars, digitsVal_natToChars]
    push_cast
    omega
  · have hfmt : formatSecondsToTime (n : Int) =
        ⟨natToChars ((n % 3600) / 60) ++
          (':' :: padStart2 (natToChars (n % 60)))⟩ := by
      unfold formatSecondsToTime
      rw [Int.toNat_ofNat, if_neg hh]
    rw [hfmt]
    show parseTimeChars (natToChars ((n % 3600) / 60) ++
      (':' :: padStart2 (natToChars (n % 60)))) = (n : Int)
    rw [parseTimeChars_two (natToChars_ne_nil _) (natToChars_all_digit _)
      (padStart2_ne_nil _) (padStart2_all_digit hsB)]
    rw [digitsVal_natToChars, digitsVal_padStart2, digitsVal_natToChars]
    push_cast
    omega

theorem mem_of_mem_jsTrim {c : Char} {cs : List Char} (h : c ∈ jsTrim cs) : c ∈ cs := by
  unfold jsTrim at h
  rw [List.mem_reverse] at h
  have h2 := (List.dropWhile_sublist isWs).mem h
  rw [List.mem_reverse] at h2
  exact (List.dropWhile_sublist isWs).mem h2

theorem mem_of_mem_splitOnColon {c : Char} {p : List Char} {cs : List Char}
    (hp : p ∈ splitOnColon cs) (hc : c ∈ p) : c ∈ cs := by
  induction cs generalizing p with
  | nil =>
    simp [splitOnColon] at hp
    subst hp
    exact absurd hc (List.not_mem_nil c)
  | cons d rest ih =>
    rw [splitOnColon] at hp
    by_cases hd : d = ':'
    · rw [if_pos hd] at hp
      rcases List.mem_cons.mp hp with h1 | h2
      · subst h1
        exact absurd hc (List.not_mem_nil c)
      · exact List.mem_cons_of_mem d (ih h2 hc)
    · rw [if_neg hd] at hp
      cases hq : splitOnColon rest with
      | nil => exact absurd hq (splitOnColon_ne_nil rest)
      | cons q qs =>
        rw [hq] at hp
        rcases List.mem_cons.mp hp with h1 | h2
        · subst h1
          rcases List.mem_cons.mp hc with h3 | h4
          · exact h3 ▸ List.mem_cons_self d rest
          · exact List.mem_cons_of_mem d (ih (hq ▸ List.mem_cons_self q qs) h4)
        · exact List.mem_cons_of_mem d (ih (hq ▸ List.mem_cons_of_mem q h2) hc)

/-- If a part contains no minus sign, `parseInt(p, 10) || 0` is non-negative. -/
theorem jsParseIntOr0_nonneg {cs : List Char} (h : '-' ∉ cs) : 0 ≤ jsParseIntOr0 cs := by
  unfold jsParseIntOr0
  cases hd : cs.dropWhile isWs with
  | nil => simp [jsParseCore]
  | cons c rest =>
    have hcm : c ∈ cs := (List.dropWhile_sublist isWs).mem (hd ▸ List.mem_cons_self c rest)
    have hcne : ¬ c = '-' := fun he => h (he ▸ hcm)
    rw [jsParseCore, if_neg hcne]
    by_cases hp : c = '+'
    · rw [if_pos hp]
      dsimp only
      split <;> positivity
    · rw [if_neg hp]
      dsimp only
      split <;> positivity

theorem combineParts_nonneg {l : List Int} (h : ∀ x ∈ l, 0 ≤ x) : 0 ≤ combineParts l := by
  cases l with
  | nil => simp [combineParts]
  | cons a t =>
    cases t with
    | nil => simp [combineParts]
    | cons b t2 =>
      cases t2 with
      | nil =>
        have ha := h a (by simp)
        have hb := h b (by simp)
        simp only [combineParts]
        omega
      | cons c t3 =>
        cases t3 with
        | nil =>
          have ha := h a (by simp)
          have hb := h b (by simp)
          have hc := h c (by simp)
          simp only [combineParts]
          omega
        | cons d t4 => simp [combineParts]

theorem combineParts_default {l : List Int} (h2 : l.length ≠ 2) (h3 : l.length ≠ 3) :
    combineParts l = 0 := by
  cases l with
  | nil => rfl
  | cons a t =>
    cases t with
    | nil => rfl
    | cons b t2 =>
      cases t2 with
      | nil => exact absurd rfl h2
      | cons c t3 =>
        cases t3 with
        | nil => exact absurd rfl h3
        | cons d t4 => rfl

/-- C9 counterexample: on the input `"-1:30"` the parser returns `-30`,
a negative number, so `parseTimeToSeconds` does not always return a
non-negative integer. -/
theorem parseTimeToSeconds_negative_output :
    parseTimeToSeconds "-1:30" = -30 ∧ ¬ (0 ≤ parseTimeToSeconds "-1:30") := by
  constructor
  · decide
  · decide

/-- C9 (amended): `parseTimeToSeconds` is total; it returns 0 on the empty
string, a non-negative result whenever the input contains no minus sign, and
0 whenever the trimmed input is neither a digit string nor splits into two or
three colon-separated parts. -/
theorem parseTimeToSeconds_total (s : String) :
    (s = "" → parseTimeToSeconds s = 0) ∧
    ('-' ∉ s.data → 0 ≤ parseTimeToSeconds s) ∧
    (((jsTrim s.data).isEmpty = true ∨ (jsTrim s.data).all Char.isDigit = false) →
      (splitOnColon (jsTrim s.data)).length ≠ 2 →
      (splitOnColon (jsTrim s.data)).length ≠ 3 →
      parseTimeToSeconds s = 0) := by
  refine ⟨?_, ?_, ?_⟩
  · intro he
    subst he
    decide
  · intro hm
    unfold parseTimeToSeconds parseTimeChars
    split
    · exact le_refl 0
    · split
      · positivity
      · apply combineParts_nonneg
        intro x hx
        rcases List.mem_map.mp hx with ⟨p, hp, hpx⟩
        subst hpx
        apply jsParseIntOr0_nonneg
        intro hmem
        exact hm (mem_of_mem_jsTrim (mem_of_mem_splitOnColon hp hmem))
  · intro hbad h2 h3
    unfold parseTimeToSeconds parseTimeChars
    split
    · rfl
    · have hcond : (!(jsTrim s.data).isEmpty && (jsTrim s.data).all Char.isDigit) = false := by
        rcases hbad with h | h
        · rw [h]
          rfl
        · rw [h, Bool.and_false]
      rw [hcond]
      simp only [Bool.false_eq_true, if_false]
      apply combineParts_default
      · simpa using h2
      · simpa using h3

/-- Substring containment test, `String.prototype.includes`. -/
def containsSub (pat : List Char) : List Char → Bool
  | [] => pat.isEmpty
  | c :: rest => pat.isPrefixOf (c :: rest) || containsSub pat rest

/-- Embedding of `YouTubeCloneForm.isValidUrl` (src/unnamed/part_006): the
URL must contain `youtube.com` or `youtu.be`. -/
def isValidUrl (url : String) : Bool :=
  containsSub "youtube.com".data url.data || containsSub "youtu.be".data url.data

/-- A run of one or two digit characters (`\d{1,2}`). -/
def digitRun12 (cs : List Char) : Bool :=
  (cs.length == 1 || cs.length == 2) && cs.all Char.isDigit

/-- A run of exactly two digit characters (`\d{2}`). -/
def digitRun2 (cs : List Char) : Bool :=
  cs.length == 2 && cs.all Char.isDigit

/-- Embedding of `YouTubeCloneForm.isValidTime`, the regex test
`/^(\d{1,2}:)?\d{1,2}(:\d{2})?$/.test(time) || /^\d+$/.test(time)`, expressed
by cases on the colon-separated parts: with no colon either alternative of
the regex reduces to a non-empty digit string; with one colon the union of
the prefix-only and suffix-only forms is two runs of one or two digits; with
two colons the fields are `\d{1,2}:\d{1,2}:\d{2}`; more colons never match. -/
def isValidTime (t : String) : Bool :=
  match splitOnColon t.data with
  | [a] => !a.isEmpty && a.all Char.isDigit
  | [a, b] => digitRun12 a && digitRun12 b
  | [a, b, c] => digitRun12 a && digitRun12 b && digitRun2 c
  | _ => false

/-- The component state of `YouTubeCloneForm` that `handleExtract` reads and
writes before any network response arrives. -/
structure YTFormState where
  url : String
  startTime : String
  endTime : String
  isLoading : Bool
  error : Option String
  extractedAudio : Option String
  extractedRefText : String
  extractedDuration : Rat
  qualityScore : Rat

/-- The POST body of the `/api/tts/extract-youtube` request. -/
structure ExtractRequest where
  url : String
  start_time : String
  end_time : String

/-- Embedding of the synchronous guard phase of
`YouTubeCloneForm.handleExtract` (src/unnamed/part_006): an invalid URL or an
invalid time sets an error message and issues no request; otherwise loading
is set, previous error and extracted audio are cleared, and the extraction
request is issued with the current url and time strings. -/
def handleExtract (st : YTFormState) : YTFormState × Option ExtractRequest :=
  if !(isValidUrl st.url) then
    ({ st with error := some "올바른 YouTube URL을 입력해주세요" }, none)
  else if !(isValidTime st.startTime) || !(isValidTime st.endTime) then
    ({ st with error := some "시간 형식을 확인해주세요 (예: 0:30, 1:45)" }, none)
  else
    ({ st with isLoading := true, error := none, extractedAudio := none },
      some ⟨st.url, st.startTime, st.endTime⟩)

/-- C10: `handleExtract` issues a request exactly when the URL and both time
strings validate; on invalid input it only sets an error message, leaving the
extracted-audio state (and the rest of the form) unchanged. -/
theorem handleExtract_guard (st : YTFormState) :
    ((handleExtract st).2.isSome = true →
      isValidUrl st.url = true ∧ isValidTime st.startTime = true ∧
        isValidTime st.endTime = true) ∧
    (isValidUrl st.url = true ∧ isValidTime st.startTime = true ∧
        isValidTime st.endTime = true →
      (handleExtract st).2 = some ⟨st.url, st.startTime, st.endTime⟩) ∧
    (¬ (isValidUrl st.url = true ∧ isValidTime st.startTime = true ∧
        isValidTime st.endTime = true) →
      (handleExtract st).2 = none ∧
      ((handleExtract st).1.error).isSome = true ∧
      (handleExtract st).1.extractedAudio = st.extractedAudio ∧
      (handleExtract st).1.extractedRefText = st.extractedRefText ∧
      (handleExtract st).1.extractedDuration = st.extractedDuration ∧
      (handleExtract st).1.qualityScore = st.qualityScore ∧
      (handleExtract st).1.isLoading = st.isLoading ∧
      (handleExtract st).1.url = st.url ∧
      (handleExtract st).1.startTime = st.startTime ∧
      (handleExtract st).1.endTime = st.endTime) := by
  unfold handleExtract
  by_cases hu : isValidUrl st.url = true
  · by_cases hs : isValidTime st.startTime = true
    · by_cases he : isValidTime st.endTime = true
      · simp [hu, hs, he]
      · simp at he
        simp [hu, hs, he]
    · simp at hs
      simp [hu, hs]
  · simp at hu
    simp [hu]

theorem parseTimeToSeconds_total_witness :
    parseTimeToSeconds "" = 0 ∧ 0 ≤ parseTimeToSeconds "1:30" ∧
      parseTimeToSeconds "a:b:c:d" = 0 :=
  ⟨(parseTimeToSeconds_total "").1 rfl,
    (parseTimeToSeconds_total "1:30").2.1 (by decide),
    (parseTimeToSeconds_total "a:b:c:d").2.2 (by decide) (by decide) (by decide)⟩

theorem handleExtract_guard_witness :
    (handleExtract ⟨"http://example.com", "0:30", "1:45", false, none, none, "", 0, 0⟩).2 =
        none ∧
      ((handleExtract
            ⟨"http://example.com", "0:30", "1:45", false, none, none, "", 0, 0⟩).1.error).isSome =
        true ∧
      (handleExtract
            ⟨"http://example.com", "0:30", "1:45", false, none, none, "", 0, 0⟩).1.extractedAudio =
        none := by
  have h :=
    (handleExtract_guard
      ⟨"http://example.com", "0:30", "1:45", false, none, none, "", 0, 0⟩).2.2 (by decide)
  exact ⟨h.1, h.2.1, h.2.2.1⟩

/-!
The audio preprocessing engine.  The repository snapshot carries only the
library's documentation (src/libs/audio/README.md); `processor.py` and
`diarization.py` themselves are absent, so the engine below is modelled from
the specification (and from the README's composition of the components).
Times, durations and scores are rationals; PCM samples are integers.
-/

/-- Modelled from the spec: the error taxonomy of §7 for the missing
`processor.py`/`diarization.py`.  Only `invalidAudio` may abort a pipeline
call; the other constructors exist so the propagation policy is a meaningful
statement. -/
inductive PipelineError where
  | invalidAudio
  | diarizationUnavailable
  | denoiseFailure
deriving DecidableEq

/-- Modelled from the spec: the per-call configuration of the engine — the
duration policy window (default 3–7 s), candidate grid step, analysis
window/hop in samples, silence floor, scoring weights, the quality cap for
under-length results and the edge-silence fraction (§4.1, §4.2, §9). -/
structure PipelineConfig where
  min_duration : Rat
  max_duration : Rat
  grid_step : Rat
  frameWindow : Nat
  frameHop : Nat
  silenceFloor : Rat
  wVoice : Rat
  wFlat : Rat
  wStable : Rat
  wEdge : Rat
  underLengthCap : Rat
  edgeFraction : Rat

/-- The default configuration: the 3–7 second policy window of the README
and §3, with 25 ms analysis windows and 10 ms hops at 16 kHz. -/
def defaultConfig : PipelineConfig :=
  { min_duration := 3, max_duration := 7, grid_step := 1, frameWindow := 400,
    frameHop := 160, silenceFloor := 1/1000, wVoice := 2/5, wFlat := 1/5,
    wStable := 1/5, wEdge := 1/5, underLengthCap := 1/2, edgeFraction := 1/10 }

/-- Well-formedness of a configuration: a positive policy window below the
maximum, a positive candidate grid and positive analysis windows. -/
def ConfigWF (cfg : PipelineConfig) : Prop :=
  0 < cfg.min_duration ∧ cfg.min_duration ≤ cfg.max_duration ∧ 0 < cfg.grid_step ∧
    0 < cfg.frameWindow ∧ 0 < cfg.frameHop ∧ 0 ≤ cfg.underLengthCap

instance (cfg : PipelineConfig) : Decidable (ConfigWF cfg) :=
  inferInstanceAs (Decidable (_ < _ ∧ _ ≤ _ ∧ _ < _ ∧ _ < _ ∧ _ < _ ∧ _ ≤ _))

/-- Mono PCM audio with its sample rate and declared duration (§3). -/
structure AudioClip where
  samples : List Int
  sample_rate : Nat
  duration_seconds : Rat

/-- One analysis window's acoustic descriptors (§3). -/
structure FeatureFrame where
  start_time : Rat
  end_time : Rat
  rms_energy : Rat
  zero_crossing_rate : Rat
  spectral_centroid : Rat
  voice_band_ratio : Rat
  spectral_flatness : Rat

/-- A candidate or final sub-range (§3). -/
structure Segment where
  start_time : Rat
  end_time : Rat
  quality_score : Rat
  speaker_label : Option String
deriving DecidableEq

/-- The degradation flags surfaced in every result (§6). -/
structure DegradedFlags where
  denoise_skipped : Bool
  diarization_skipped : Bool
  under_length : Bool
deriving DecidableEq

/-- The pipeline's only output entity (§3, §6). -/
structure ProcessingResult where
  audio_bytes : List Int
  duration_seconds : Rat
  quality_score : Rat
  selected_range : Rat × Rat
  speaker_label : Option String
  degraded_flags : DegradedFlags
deriving DecidableEq

/-- Clamping into `[lo, hi]`. -/
def clamp (lo hi x : Rat) : Rat := max lo (min hi x)

/-- Mean of a list of rationals (0 for the empty list). -/
def qmean (xs : List Rat) : Rat := if xs.length = 0 then 0 else xs.sum / (xs.length : Rat)

/-- Number of sign changes between adjacent samples. -/
def countSignChanges : List Int → Nat
  | [] => 0
  | [_] => 0
  | a :: b :: t => (if a * b < 0 then 1 else 0) + countSignChanges (b :: t)

/-- Canonical clip construction at pipeline entry (§4.5 step 1): the decoded
buffer with its declared duration `samples / rate`. -/
def mkClip (samples : List Int) (rate : Nat) : AudioClip :=
  ⟨samples, rate, (samples.length : Rat) / (rate : Rat)⟩

/-- Modelled from the spec: one frame of the Feature Extractor (§4.1) for
the missing `processor.py`.  Energy (as mean square) and zero-crossing rate
are computed from the samples; the FFT-based spectral descriptors (centroid,
voice-band ratio, flatness) are modelled as computable zero-crossing-based
proxies, which §4.1 permits since the extractor only emits numbers and all
classification policy lives in the Scorer. -/
def frameAt (cfg : PipelineConfig) (clip : AudioClip) (i : Nat) : FeatureFrame :=
  let chunk := (clip.samples.drop (i * cfg.frameHop)).take cfg.frameWindow
  let energy := qmean (chunk.map fun x => (x : Rat) * (x : Rat))
  let zcr : Rat :=
    if chunk.length = 0 then 0 else (countSignChanges chunk : Rat) / (chunk.length : Rat)
  { start_time := ((i * cfg.frameHop : Nat) : Rat) / (clip.sample_rate : Rat)
  , end_time := ((i * cfg.frameHop + cfg.frameWindow : Nat) : Rat) / (clip.sample_rate : Rat)
  , rms_energy := energy
  , zero_crossing_rate := zcr
  , spectral_centroid := zcr * (clip.sample_rate : Rat) / 2
  , voice_band_ratio := clamp 0 1 (1 - zcr)
  , spectral_flatness := clamp 0 1 zcr }

/-- Number of dense analysis windows covering the clip (§4.1). -/
def numFrames (cfg : PipelineConfig) (len : Nat) : Nat :=
  if len < cfg.frameWindow then 0 else (len - cfg.frameWindow) / cfg.frameHop + 1

/-- Modelled from the spec: the Feature Extractor (§4.1) — a dense,
time-ordered sequence of frames over fixed-size windows. -/
def extractFeatures (cfg : PipelineConfig) (clip : AudioClip) : List FeatureFrame :=
  (List.range (numFrames cfg clip.samples.length)).map (frameAt cfg clip)

/-- Frames of the canonical clip of a raw buffer. -/
def clipFrames (cfg : PipelineConfig) (samples : List Int) (rate : Nat) : List FeatureFrame :=
  extractFeatures cfg (mkClip samples rate)

/-- Modelled from the spec: input validity (§4.1, §4.5 step 1) — the input
must decode (non-zero rate), be at least one analysis window long (a
non-empty frame sequence) and not be silent throughout (some frame's energy
reaches the floor). -/
def decodeOk (cfg : PipelineConfig) (samples : List Int) (rate : Nat) : Bool :=
  rate != 0 && !(clipFrames cfg samples rate).isEmpty &&
    (clipFrames cfg samples rate).any fun f => decide (cfg.silenceFloor ≤ f.rms_energy)

/-- A candidate window: a start time and a length. -/
structure Window where
  start : Rat
  len : Rat
deriving DecidableEq

/-- Frames wholly inside `[a, b]`. -/
def framesIn (frames : List FeatureFrame) (a b : Rat) : List FeatureFrame :=
  frames.filter fun f => decide (a ≤ f.start_time ∧ f.end_time ≤ b)

/-- Peak frame energy of a window (0 when empty). -/
def peakEnergy (fs : List FeatureFrame) : Rat :=
  (fs.map fun f => f.rms_energy).foldr max 0

/-- Edge-silence test (§4.2 (d)): energy near both window edges must be
below a fraction of the window's peak. -/
def edgeOk (cfg : PipelineConfig) (fs : List FeatureFrame) : Bool :=
  decide ((fs.map fun f => f.rms_energy).headD 0 ≤ cfg.edgeFraction * peakEnergy fs) &&
    decide ((fs.map fun f => f.rms_energy).getLastD 0 ≤ cfg.edgeFraction * peakEnergy fs)

/-- Modelled from the spec: the Scorer's weighted combination (§4.2) of
(a) mean voice-band ratio, (b) inverse mean spectral flatness, (c) energy
stability and (d) the edge-silence preference, for the frames inside
`[a, b]`.  The exact weights are a tunable policy (§9). -/
def rawScore (cfg : PipelineConfig) (frames : List FeatureFrame) (a b : Rat) : Rat :=
  cfg.wVoice * qmean ((framesIn frames a b).map fun f => f.voice_band_ratio) +
    cfg.wFlat * (1 - qmean ((framesIn frames a b).map fun f => f.spectral_flatness)) +
    cfg.wStable * (1 / (1 +
      qmean (((framesIn frames a b).map fun f => f.rms_energy).map fun e =>
        (e - qmean ((framesIn frames a b).map fun f => f.rms_energy)) *
          (e - qmean ((framesIn frames a b).map fun f => f.rms_energy))))) +
    cfg.wEdge * (if edgeOk cfg (framesIn frames a b) then 1 else 0)

/-- Normalized [0,1] quality score of a candidate window (§3 invariant,
glossary). -/
def scoreWindow (cfg : PipelineConfig) (frames : List FeatureFrame) (w : Window) : Rat :=
  clamp 0 1 (rawScore cfg frames w.start (w.start + w.len))

/-- Distance of a window's length from the configured minimum (§4.2 ties). -/
def distToMin (cfg : PipelineConfig) (w : Window) : Rat := |w.len - cfg.min_duration|

/-- The filter every generated candidate must pass: a length inside the
policy window, placed inside the search region `[a, b]`. -/
def validWindow (cfg : PipelineConfig) (a b : Rat) (w : Window) : Prop :=
  cfg.min_duration ≤ w.len ∧ w.len ≤ cfg.max_duration ∧ a ≤ w.start ∧ w.start + w.len ≤ b

instance (cfg : PipelineConfig) (a b : Rat) (w : Window) :
    Decidable (validWindow cfg a b w) :=
  inferInstanceAs (Decidable (_ ≤ _ ∧ _ ≤ _ ∧ _ ≤ _ ∧ _ ≤ _))

/-- Modelled from the spec: the Scorer's candidate generation (§4.2) — slide
windows whose lengths range over the duration bounds across the region
`[a, b]` on the configured grid, keeping those inside the policy window. -/
def windowsInRegion (cfg : PipelineConfig) (a b : Rat) : List Window :=
  (((List.range
      (((min cfg.max_duration (b - a) - cfg.min_duration) / cfg.grid_step).floor.toNat + 1)).flatMap
    fun (k : Nat) =>
      (List.range (((b - a - cfg.min_duration) / cfg.grid_step).floor.toNat + 1)).map
        fun (j : Nat) =>
          Window.mk (a + (j : Rat) * cfg.grid_step)
            (cfg.min_duration + (k : Rat) * cfg.grid_step)).filter
    fun w => decide (validWindow cfg a b w))

/-- Deterministic pick of the most preferred element along a strict
preference relation: later elements replace the current pick only when
strictly preferred. -/
def selectBy (lt : α → α → Prop) [DecidableRel lt] : α → List α → α
  | x, [] => x
  | x, c :: cs => selectBy lt (if lt c x then c else x) cs

/-- The Scorer's preference between candidate windows (§4.2): strictly
higher score, then strictly closer to `min_duration`, then strictly earlier
start. -/
def winPref (cfg : PipelineConfig) (frames : List FeatureFrame) (w₁ w₂ : Window) : Prop :=
  scoreWindow cfg frames w₂ < scoreWindow cfg frames w₁ ∨
    (scoreWindow cfg frames w₁ = scoreWindow cfg frames w₂ ∧
      (distToMin cfg w₁ < distToMin cfg w₂ ∨
        (distToMin cfg w₁ = distToMin cfg w₂ ∧ w₁.start < w₂.start)))

instance (cfg : PipelineConfig) (frames : List FeatureFrame) (w₁ w₂ : Window) :
    Decidable (winPref cfg frames w₁ w₂) :=
  inferInstanceAs (Decidable (_ < _ ∨ (_ = _ ∧ (_ < _ ∨ (_ = _ ∧ _ < _)))))

/-- The highest-scoring candidate window under the §4.2 tie-breaking
policy. -/
def bestWindow (cfg : PipelineConfig) (frames : List FeatureFrame)
    (c : Window) (cs : List Window) : Window :=
  selectBy (winPref cfg frames) c cs

/-- The ways the external denoising subprocess can fail (§4.3). -/
inductive DenoiseFailureKind where
  | binaryMissing
  | nonzeroExit
  | timeout
deriving DecidableEq

/-- The observable outcome of one invocation of the external denoising
filter, an environment input to the model: either denoised PCM or one of
the failure modes. -/
inductive DenoiseOutcome where
  | success (pcm : List Int)
  | failed (k : DenoiseFailureKind)

/-- Modelled from the spec: the Noise Reducer (§4.3) for the missing
`processor.py`.  Strength 0 bypasses the subprocess entirely; on success the
denoised PCM is used; on any subprocess failure the original PCM is returned
and the degradation is flagged (second component). -/
def runDenoise (strength : Rat) (outcome : DenoiseOutcome) (pcm : List Int) :
    List Int × Bool :=
  if strength = 0 then (pcm, false)
  else
    match outcome with
    | .success p => (p, false)
    | .failed _ => (pcm, true)

/-- PCM sub-range of a clip for a time range, by sample index. -/
def slicePCM (clip : AudioClip) (a b : Rat) : List Int :=
  (clip.samples.drop ((a * (clip.sample_rate : Rat)).floor.toNat)).take
    (((b - a) * (clip.sample_rate : Rat)).floor.toNat)

/-- Largest absolute sample value. -/
def peakAbs (pcm : List Int) : Nat :=
  pcm.foldr (fun x m => max x.natAbs m) 0

/-- Modelled from the spec: loudness normalization to a fixed target level
(§4.5 step 6), modelled as integer peak normalization. -/
def normalizeLoudness (pcm : List Int) : List Int :=
  if peakAbs pcm = 0 then pcm else pcm.map fun x => x * 30000 / (peakAbs pcm : Int)

/-- Modelled from the spec: the Scorer's range selection for a whole clip
(§4.2): a clip shorter than `min_duration` (or one in which no candidate
fits) yields the whole clip with a capped quality score and the
under-length flag; otherwise the best candidate window is selected.
Returns `(range, quality, under_length)`. -/
def selectFromCandidates (cfg : PipelineConfig) (frames : List FeatureFrame) (d : Rat) :
    List Window → (Rat × Rat) × Rat × Bool
  | [] => ((0, d), min (scoreWindow cfg frames ⟨0, d⟩) cfg.underLengthCap, true)
  | c :: cs =>
    ((((bestWindow cfg frames c cs).start,
        (bestWindow cfg frames c cs).start + (bestWindow cfg frames c cs).len)),
      scoreWindow cfg frames (bestWindow cfg frames c cs), false)

def selectRange (cfg : PipelineConfig) (frames : List FeatureFrame) (d : Rat) :
    (Rat × Rat) × Rat × Bool :=
  if d < cfg.min_duration then
    ((0, d), min (scoreWindow cfg frames ⟨0, d⟩) cfg.underLengthCap, true)
  else selectFromCandidates cfg frames d (windowsInRegion cfg 0 d)

/-- The packaged result of a successful pipeline call (§4.5 steps 3–7):
range selection over the clip's frames, PCM extraction for the selected
range, optional denoising with its degradation flag, loudness normalization
and packaging with the quality score and flags. -/
def pipelineOutput (cfg : PipelineConfig) (samples : List Int) (rate : Nat)
    (denoise : Bool) (strength : Rat) (outcome : DenoiseOutcome) : ProcessingResult :=
  { audio_bytes :=
      normalizeLoudness
        (if denoise then
          (runDenoise strength outcome
            (slicePCM (mkClip samples rate)
              (selectRange cfg (clipFrames cfg samples rate)
                (mkClip samples rate).duration_seconds).1.1
              (selectRange cfg (clipFrames cfg samples rate)
                (mkClip samples rate).duration_seconds).1.2)).1
        else
          slicePCM (mkClip samples rate)
            (selectRange cfg (clipFrames cfg samples rate)
              (mkClip samples rate).duration_seconds).1.1
            (selectRange cfg (clipFrames cfg samples rate)
              (mkClip samples rate).duration_seconds).1.2)
  , duration_seconds :=
      (selectRange cfg (clipFrames cfg samples rate)
        (mkClip samples rate).duration_seconds).1.2 -
      (selectRange cfg (clipFrames cfg samples rate)
        (mkClip samples rate).duration_seconds).1.1
  , quality_score :=
      (selectRange cfg (clipFrames cfg samples rate)
        (mkClip samples rate).duration_seconds).2.1
  , selected_range :=
      (selectRange cfg (clipFrames cfg samples rate)
        (mkClip samples rate).duration_seconds).1
  , speaker_label := none
  , degraded_flags :=
      ⟨(if denoise then
          (runDenoise strength outcome
            (slicePCM (mkClip samples rate)
              (selectRange cfg (clipFrames cfg samples rate)
                (mkClip samples rate).duration_seconds).1.1
              (selectRange cfg (clipFrames cfg samples rate)
                (mkClip samples rate).duration_seconds).1.2)).2
        else false), true,
        (selectRange cfg (clipFrames cfg samples rate)
          (mkClip samples rate).duration_seconds).2.2⟩ }

/-- Modelled from the spec: the public pipeline entry point
`preprocess_for_cloning` (§4.5, and the README's `processor.py` signature,
which takes audio bytes and denoising options but no diarization — the
README composes the diarizer with the processor at the caller).  The
subprocess outcome is an explicit environment input; only invalid audio
aborts the call. -/
def preprocess_for_cloning (cfg : PipelineConfig) (samples : List Int) (rate : Nat)
    (denoise : Bool) (strength : Rat) (outcome : DenoiseOutcome) :
    Except PipelineError ProcessingResult :=
  if decodeOk cfg samples rate then
    Except.ok (pipelineOutput cfg samples rate denoise strength outcome)
  else Except.error PipelineError.invalidAudio

/-- A diarization turn: a contiguous interval attributed to one speaker. -/
structure SpeakerTurn where
  speaker : String
  start : Rat
  stop : Rat
deriving DecidableEq

/-- Modelled from the spec: the diarizer's output (§3) — turns in time
order; the speaker set and the per-speaker durations are derived views of
the turns. -/
structure DiarizationResult where
  turns : List SpeakerTurn

/-- Total speaking duration of a speaker (the `speaking_duration_by_speaker`
mapping of §3). -/
def speaking_duration (r : DiarizationResult) (spk : String) : Rat :=
  ((r.turns.filter fun t => t.speaker == spk).map fun t => t.stop - t.start).sum

/-- Number of distinct turns of a speaker. -/
def turnCount (r : DiarizationResult) (spk : String) : Nat :=
  (r.turns.filter fun t => t.speaker == spk).length

/-- Speaker labels in order of first appearance. -/
def speakerLabels (r : DiarizationResult) : List String :=
  (r.turns.map fun t => t.speaker).dedup

/-- Preference between speakers (§4.4): strictly greater total speaking
duration, then strictly more distinct turns. -/
def spkPref (r : DiarizationResult) (a b : String) : Prop :=
  speaking_duration r b < speaking_duration r a ∨
    (speaking_duration r a = speaking_duration r b ∧ turnCount r b < turnCount r a)

instance (r : DiarizationResult) (a b : String) : Decidable (spkPref r a b) :=
  inferInstanceAs (Decidable (_ < _ ∨ (_ = _ ∧ _ < _)))

/-- Modelled from the spec: `get_main_speaker` (§4.4) for the missing
`diarization.py` — the label with the greatest total speaking duration,
ties broken by the greatest number of distinct turns. -/
def mainOf (r : DiarizationResult) : List String → Option String
  | [] => none
  | s :: ss => some (selectBy (spkPref r) s ss)

def get_main_speaker (r : DiarizationResult) : Option String :=
  mainOf r (speakerLabels r)

/-- Candidate windows restricted to a single speaker's turns (§4.2
restriction): windows are generated inside each of that speaker's turns, so
none may straddle a turn boundary. -/
def speakerWindows (cfg : PipelineConfig) (r : DiarizationResult) (spk : String) :
    List Window :=
  (r.turns.filter fun t => t.speaker == spk).flatMap fun t =>
    windowsInRegion cfg t.start t.stop

/-- Preference for the longer turn. -/
def turnLonger (t u : SpeakerTurn) : Prop := u.stop - u.start < t.stop - t.start

instance (t u : SpeakerTurn) : Decidable (turnLonger t u) :=
  inferInstanceAs (Decidable (_ < _))

/-- A speaker's single longest turn, if any. -/
def longestOf : List SpeakerTurn → Option SpeakerTurn
  | [] => none
  | t :: ts => some (selectBy turnLonger t ts)

def longestTurn (r : DiarizationResult) (spk : String) : Option SpeakerTurn :=
  longestOf (r.turns.filter (fun t => t.speaker == spk))

/-- Modelled from the spec: `get_best_segment` (§4.4) for the missing
`diarization.py` — the Segment Scorer restricted to the speaker's turns;
when no candidate of valid length fits inside the speaker's turns (in
particular when the speaker's total speaking time is below `min_duration`)
the speaker's single longest turn is returned flagged as under-length
(second component) rather than failing. -/
def segmentFromCandidates (cfg : PipelineConfig) (frames : List FeatureFrame)
    (r : DiarizationResult) (spk : String) : List Window → Option (Segment × Bool)
  | [] =>
    (longestTurn r spk).map fun t =>
      (⟨t.start, t.stop,
        min (scoreWindow cfg frames ⟨t.start, t.stop - t.start⟩) cfg.underLengthCap,
        some spk⟩, true)
  | c :: cs =>
    some (⟨(bestWindow cfg frames c cs).start,
      (bestWindow cfg frames c cs).start + (bestWindow cfg frames c cs).len,
      scoreWindow cfg frames (bestWindow cfg frames c cs), some spk⟩, false)

def get_best_segment (cfg : PipelineConfig) (frames : List FeatureFrame)
    (r : DiarizationResult) (spk : String) : Option (Segment × Bool) :=
  segmentFromCandidates cfg frames r spk (speakerWindows cfg r spk)

theorem selectBy_mem (lt : α → α → Prop) [DecidableRel lt] (x : α) (xs : List α) :
    selectBy lt x xs = x ∨ selectBy lt x xs ∈ xs := by
  induction xs generalizing x with
  | nil => left; rfl
  | cons c cs ih =>
    have hstep : selectBy lt x (c :: cs) = selectBy lt (if lt c x then c else x) cs := rfl
    rw [hstep]
    rcases ih (if lt c x then c else x) with h | h
    · rw [h]
      split
      · right
        exact List.mem_cons_self c cs
      · left
        rfl
    · right
      exact List.mem_cons_of_mem c h

theorem selectBy_not_pref (lt : α → α → Prop) [DecidableRel lt]
    (htr : ∀ a b c, lt a b → lt b c → lt a c)
    (hng : ∀ a b c, ¬ lt a b → ¬ lt b c → ¬ lt a c)
    (hirr : ∀ a, ¬ lt a a) (x : α) (xs : List α) :
    ∀ y, (y = x ∨ y ∈ xs) → ¬ lt y (selectBy lt x xs) := by
  induction xs generalizing x with
  | nil =>
    intro y hy
    rcases hy with h | h
    · subst h
      exact hirr y
    · exact absurd h (List.not_mem_nil y)
  | cons c cs ih =>
    intro y hy
    have hstep : selectBy lt x (c :: cs) = selectBy lt (if lt c x then c else x) cs := rfl
    rw [hstep]
    by_cases hcx : lt c x
    · rw [if_pos hcx]
      rcases hy with h | h
      · subst h
        intro hlt
        exact ih c c (Or.inl rfl) (htr c y (selectBy lt c cs) hcx hlt)
      · rcases List.mem_cons.mp h with h1 | h2
        · subst h1
          exact ih y y (Or.inl rfl)
        · exact ih c y (Or.inr h2)
    · rw [if_neg hcx]
      rcases hy with h | h
      · subst h
        exact ih y y (Or.inl rfl)
      · rcases List.mem_cons.mp h with h1 | h2
        · subst h1
          exact hng y x (selectBy lt x cs) hcx (ih x x (Or.inl rfl))
        · exact ih x y (Or.inr h2)

theorem winPref_trans (cfg : PipelineConfig) (frames : List FeatureFrame) :
    ∀ a b c, winPref cfg frames a b → winPref cfg frames b c → winPref cfg frames a c := by
  intro a b c h1 h2
  unfold winPref at *
  rcases h1 with h1 | ⟨e1, h1 | ⟨d1, s1⟩⟩ <;> rcases h2 with h2 | ⟨e2, h2 | ⟨d2, s2⟩⟩ <;>
    first
      | exact Or.inl (by linarith)
      | exact Or.inr ⟨by linarith, Or.inl (by linarith)⟩
      | exact Or.inr ⟨by linarith, Or.inr ⟨by linarith, by linarith⟩⟩

theorem winPref_negtrans (cfg : PipelineConfig) (frames : List FeatureFrame) :
    ∀ a b c, ¬ winPref cfg frames a b → ¬ winPref cfg frames b c →
      ¬ winPref cfg frames a c := by
  intro a b c h1 h2 h3
  unfold winPref at *
  push_neg at h1 h2
  rcases h3 with h3 | ⟨e3, h3 | ⟨d3, s3⟩⟩
  · linarith [h1.1, h2.1]
  · have e1 : scoreWindow cfg frames a = scoreWindow cfg frames b := by linarith [h1.1, h2.1]
    have e2 : scoreWindow cfg frames b = scoreWindow cfg frames c := by linarith [h1.1, h2.1]
    have q1 := h1.2 e1
    have q2 := h2.2 e2
    linarith [q1.1, q2.1]
  · have e1 : scoreWindow cfg frames a = scoreWindow cfg frames b := by linarith [h1.1, h2.1]
    have e2 : scoreWindow cfg frames b = scoreWindow cfg frames c := by linarith [h1.1, h2.1]
    have q1 := h1.2 e1
    have q2 := h2.2 e2
    have dd1 : distToMin cfg a = distToMin cfg b := by linarith [q1.1, q2.1]
    have dd2 : distToMin cfg b = distToMin cfg c := by linarith [q1.1, q2.1]
    have r1 := q1.2 dd1
    have r2 := q2.2 dd2
    linarith

theorem winPref_irrefl (cfg : PipelineConfig) (frames : List FeatureFrame) :
    ∀ a, ¬ winPref cfg frames a a := by
  intro a h
  unfold winPref at h
  rcases h with h | ⟨_, h | ⟨_, h⟩⟩ <;> exact absurd h (lt_irrefl _)

theorem spkPref_trans (r : DiarizationResult) :
    ∀ a b c, spkPref r a b → spkPref r b c → spkPref r a c := by
  intro a b c h1 h2
  unfold spkPref at *
  rcases h1 with h1 | ⟨e1, c1⟩ <;> rcases h2 with h2 | ⟨e2, c2⟩
  · exact Or.inl (by linarith)
  · exact Or.inl (by linarith)
  · exact Or.inl (by linarith)
  · exact Or.inr ⟨by linarith, by omega⟩

theorem spkPref_negtrans (r : DiarizationResult) :
    ∀ a b c, ¬ spkPref r a b → ¬ spkPref r b c → ¬ spkPref r a c := by
  intro a b c h1 h2 h3
  unfold spkPref at *
  push_neg at h1 h2
  rcases h3 with h3 | ⟨e3, c3⟩
  · linarith [h1.1, h2.1]
  · have e1 : speaking_duration r a = speaking_duration r b := by linarith [h1.1, h2.1]
    have e2 : speaking_duration r b = speaking_duration r c := by linarith [h1.1, h2.1]
    have := h1.2 e1
    have := h2.2 e2
    omega

theorem spkPref_irrefl (r : DiarizationResult) : ∀ a, ¬ spkPref r a a := by
  intro a h
  unfold spkPref at h
  rcases h with h | ⟨_, h⟩
  · exact absurd h (lt_irrefl _)
  · exact absurd h (lt_irrefl _)

theorem turnLonger_trans : ∀ a b c : SpeakerTurn, turnLonger a b → turnLonger b c →
    turnLonger a c := by
  intro a b c h1 h2
  unfold turnLonger at *
  linarith

theorem turnLonger_negtrans : ∀ a b c : SpeakerTurn, ¬ turnLonger a b → ¬ turnLonger b c →
    ¬ turnLonger a c := by
  intro a b c h1 h2 h3
  unfold turnLonger at *
  push_neg at h1 h2
  linarith

theorem turnLonger_irrefl : ∀ a : SpeakerTurn, ¬ turnLonger a a := by
  intro a h
  unfold turnLonger at h
  exact absurd h (lt_irrefl _)

theorem selectBy_mem_cons (lt : α → α → Prop) [DecidableRel lt] (x : α) (xs : List α) :
    selectBy lt x xs ∈ x :: xs := by
  rcases selectBy_mem lt x xs with h | h
  · rw [h]
    exact List.mem_cons_self x xs
  · exact List.mem_cons_of_mem x h

theorem clamp01_nonneg (x : Rat) : 0 ≤ clamp 0 1 x := le_max_left 0 _

theorem clamp01_le_one (x : Rat) : clamp 0 1 x ≤ 1 :=
  max_le (by norm_num) (min_le_left 1 x)

theorem scoreWindow_nonneg (cfg : PipelineConfig) (frames : List FeatureFrame) (w : Window) :
    0 ≤ scoreWindow cfg frames w := clamp01_nonneg _

theorem scoreWindow_le_one (cfg : PipelineConfig) (frames : List FeatureFrame) (w : Window) :
    scoreWindow cfg frames w ≤ 1 := clamp01_le_one _

theorem mem_windowsInRegion {cfg : PipelineConfig} {a b : Rat} {w : Window}
    (hw : w ∈ windowsInRegion cfg a b) : validWindow cfg a b w := by
  unfold windowsInRegion at hw
  rw [List.mem_filter] at hw
  exact of_decide_eq_true hw.2

theorem windowsInRegion_base_mem {cfg : PipelineConfig} {a b : Rat}
    (hmm : cfg.min_duration ≤ cfg.max_duration) (hfit : a + cfg.min_duration ≤ b) :
    Window.mk a cfg.min_duration ∈ windowsInRegion cfg a b := by
  unfold windowsInRegion
  rw [List.mem_filter]
  constructor
  · have he : Window.mk a cfg.min_duration =
        Window.mk (a + ((0 : Nat) : Rat) * cfg.grid_step)
          (cfg.min_duration + ((0 : Nat) : Rat) * cfg.grid_step) := by
      simp
    rw [he]
    exact List.mem_flatMap_of_mem (List.mem_range.mpr (Nat.succ_pos _))
      (List.mem_map_of_mem _ (List.mem_range.mpr (Nat.succ_pos _)))
  · rw [decide_eq_true_eq]
    exact ⟨le_refl _, hmm, le_refl _, hfit⟩

theorem bestWindow_mem (cfg : PipelineConfig) (frames : List FeatureFrame)
    (c : Window) (cs : List Window) : bestWindow cfg frames c cs ∈ c :: cs :=
  selectBy_mem_cons _ c cs

theorem bestWindow_not_pref (cfg : PipelineConfig) (frames : List FeatureFrame)
    (c : Window) (cs : List Window) :
    ∀ y ∈ c :: cs, ¬ winPref cfg frames y (bestWindow cfg frames c cs) := by
  intro y hy
  exact selectBy_not_pref (winPref cfg frames) (winPref_trans cfg frames)
    (winPref_negtrans cfg frames) (winPref_irrefl cfg frames) c cs y
    (List.mem_cons.mp hy)

theorem not_winPref_destruct {cfg : PipelineConfig} {frames : List FeatureFrame}
    {y w : Window} (h : ¬ winPref cfg frames y w) :
    scoreWindow cfg frames y ≤ scoreWindow cfg frames w ∧
      (scoreWindow cfg frames y = scoreWindow cfg frames w →
        distToMin cfg w ≤ distToMin cfg y ∧
          (distToMin cfg w = distToMin cfg y → w.start ≤ y.start)) := by
  unfold winPref at h
  push_neg at h
  refine ⟨h.1, fun he => ?_⟩
  have h2 := h.2 he
  exact ⟨h2.1, fun hd => h2.2 hd.symm⟩

/-- C7: whenever two or more candidate windows achieve the equal highest
score, the Segment Scorer returns the tied window whose length is closest to
`min_duration`, and among windows also tied on that distance, the one with
the earliest start time; no candidate scores above the returned window. -/
theorem scorer_tie_breaking (cfg : PipelineConfig) (frames : List FeatureFrame)
    (c : Window) (cs : List Window) (y : Window) (hy : y ∈ c :: cs) :
    scoreWindow cfg frames y ≤ scoreWindow cfg frames (bestWindow cfg frames c cs) ∧
      (scoreWindow cfg frames y = scoreWindow cfg frames (bestWindow cfg frames c cs) →
        distToMin cfg (bestWindow cfg frames c cs) ≤ distToMin cfg y ∧
          (distToMin cfg (bestWindow cfg frames c cs) = distToMin cfg y →
            (bestWindow cfg frames c cs).start ≤ y.start)) :=
  not_winPref_destruct (bestWindow_not_pref cfg frames c cs y hy)

theorem scorer_tie_breaking_witness :
    scoreWindow defaultConfig [] ⟨1, 3⟩ ≤
        scoreWindow defaultConfig [] (bestWindow defaultConfig [] ⟨0, 3⟩ [⟨1, 3⟩]) ∧
      (scoreWindow defaultConfig [] ⟨1, 3⟩ =
          scoreWindow defaultConfig [] (bestWindow defaultConfig [] ⟨0, 3⟩ [⟨1, 3⟩]) →
        distToMin defaultConfig (bestWindow defaultConfig [] ⟨0, 3⟩ [⟨1, 3⟩]) ≤
            distToMin defaultConfig ⟨1, 3⟩ ∧
          (distToMin defaultConfig (bestWindow defaultConfig [] ⟨0, 3⟩ [⟨1, 3⟩]) =
              distToMin defaultConfig ⟨1, 3⟩ →
            (bestWindow defaultConfig [] ⟨0, 3⟩ [⟨1, 3⟩]).start ≤ (⟨1, 3⟩ : Window).start)) :=
  scorer_tie_breaking defaultConfig [] ⟨0, 3⟩ [⟨1, 3⟩] ⟨1, 3⟩
    (List.mem_cons_of_mem _ (List.mem_cons_self _ _))

/-- C6: `get_main_speaker` returns a label of the result with the greatest
total speaking duration; among labels tied on total duration it has the
greatest number of distinct turns. -/
theorem main_speaker_dominates (r : DiarizationResult) (spk : String)
    (h : get_main_speaker r = some spk) :
    spk ∈ speakerLabels r ∧
      ∀ s ∈ speakerLabels r,
        speaking_duration r s < speaking_duration r spk ∨
          (speaking_duration r s = speaking_duration r spk ∧
            turnCount r s ≤ turnCount r spk) := by
  unfold get_main_speaker at h
  cases hl : speakerLabels r with
  | nil =>
    rw [hl] at h
    exact absurd h (by simp [mainOf])
  | cons s0 ss =>
    rw [hl] at h
    simp only [mainOf, Option.some.injEq] at h
    subst h
    constructor
    · exact selectBy_mem_cons _ s0 ss
    · intro s hs
      have hnp := selectBy_not_pref (spkPref r) (spkPref_trans r) (spkPref_negtrans r)
        (spkPref_irrefl r) s0 ss s (List.mem_cons.mp hs)
      unfold spkPref at hnp
      push_neg at hnp
      rcases lt_or_eq_of_le hnp.1 with hlt | heq
      · exact Or.inl hlt
      · exact Or.inr ⟨heq, hnp.2 heq⟩

theorem main_speaker_dominates_witness :
    "A" ∈ speakerLabels ⟨[⟨"A", 0, 10⟩, ⟨"B", 10, 20⟩]⟩ ∧
      ∀ s ∈ speakerLabels ⟨[⟨"A", 0, 10⟩, ⟨"B", 10, 20⟩]⟩,
        speaking_duration ⟨[⟨"A", 0, 10⟩, ⟨"B", 10, 20⟩]⟩ s <
            speaking_duration ⟨[⟨"A", 0, 10⟩, ⟨"B", 10, 20⟩]⟩ "A" ∨
          (speaking_duration ⟨[⟨"A", 0, 10⟩, ⟨"B", 10, 20⟩]⟩ s =
              speaking_duration ⟨[⟨"A", 0, 10⟩, ⟨"B", 10, 20⟩]⟩ "A" ∧
            turnCount ⟨[⟨"A", 0, 10⟩, ⟨"B", 10, 20⟩]⟩ s ≤
              turnCount ⟨[⟨"A", 0, 10⟩, ⟨"B", 10, 20⟩]⟩ "A") :=
  main_speaker_dominates ⟨[⟨"A", 0, 10⟩, ⟨"B", 10, 20⟩]⟩ "A" (by with_unfolding_all decide)

theorem speakerWindows_within (cfg : PipelineConfig) (r : DiarizationResult) (spk : String) :
    ∀ w ∈ speakerWindows cfg r spk,
      ∃ t ∈ r.turns, t.speaker = spk ∧ t.start ≤ w.start ∧ w.start + w.len ≤ t.stop := by
  intro w hw
  unfold speakerWindows at hw
  rw [List.mem_flatMap] at hw
  obtain ⟨t, ht, hwt⟩ := hw
  rw [List.mem_filter] at ht
  have hv := mem_windowsInRegion hwt
  exact ⟨t, ht.1, eq_of_beq ht.2, hv.2.2.1, hv.2.2.2⟩

theorem longestTurn_mem {r : DiarizationResult} {spk : String} {t : SpeakerTurn}
    (h : longestTurn r spk = some t) : t ∈ r.turns ∧ t.speaker = spk := by
  unfold longestTurn at h
  cases hf : r.turns.filter (fun u => u.speaker == spk) with
  | nil =>
    rw [hf] at h
    exact absurd h (by simp [longestOf])
  | cons t0 ts =>
    rw [hf] at h
    simp only [longestOf, Option.some.injEq] at h
    subst h
    have hm : selectBy turnLonger t0 ts ∈ t0 :: ts := selectBy_mem_cons _ t0 ts
    rw [← hf] at hm
    rw [List.mem_filter] at hm
    exact ⟨hm.1, eq_of_beq hm.2⟩

/-- C5: with a `DiarizationResult` supplied, every candidate window the
Segment Scorer considers for a speaker lies within a single one of that
speaker's turns, and — when the turns of distinct speakers are disjoint, as
diarization produces them — the segment `get_best_segment` returns lies
within one of the chosen speaker's turns and never overlaps another
speaker's turn. -/
theorem diarization_gating (cfg : PipelineConfig) (frames : List FeatureFrame)
    (r : DiarizationResult) (spk : String) (seg : Segment) (fl : Bool)
    (hdisj : ∀ t ∈ r.turns, ∀ u ∈ r.turns, t.speaker ≠ u.speaker →
      t.stop ≤ u.start ∨ u.stop ≤ t.start)
    (hbest : get_best_segment cfg frames r spk = some (seg, fl)) :
    (∀ w ∈ speakerWindows cfg r spk,
      ∃ t ∈ r.turns, t.speaker = spk ∧ t.start ≤ w.start ∧ w.start + w.len ≤ t.stop) ∧
    (∃ t ∈ r.turns, t.speaker = spk ∧ t.start ≤ seg.start_time ∧ seg.end_time ≤ t.stop) ∧
    (∀ u ∈ r.turns, u.speaker ≠ spk →
      ¬ (seg.start_time < u.stop ∧ u.start < seg.end_time)) := by
  have hwins := speakerWindows_within cfg r spk
  have hseg : ∃ t ∈ r.turns, t.speaker = spk ∧ t.start ≤ seg.start_time ∧
      seg.end_time ≤ t.stop := by
    unfold get_best_segment at hbest
    cases hc : speakerWindows cfg r spk with
    | nil =>
      rw [hc] at hbest
      simp only [segmentFromCandidates] at hbest
      cases hlt : longestTurn r spk with
      | none =>
        rw [hlt] at hbest
        exact absurd hbest (by simp)
      | some t =>
        rw [hlt] at hbest
        simp only [Option.map_some', Option.some.injEq, Prod.mk.injEq] at hbest
        obtain ⟨ht1, ht2⟩ := longestTurn_mem hlt
        refine ⟨t, ht1, ht2, ?_, ?_⟩ <;> rw [← hbest.1]
    | cons c cs =>
      rw [hc] at hbest
      simp only [segmentFromCandidates, Option.some.injEq, Prod.mk.injEq] at hbest
      have hmem : bestWindow cfg frames c cs ∈ speakerWindows cfg r spk := by
        rw [hc]
        exact bestWindow_mem cfg frames c cs
      obtain ⟨t, ht, hts, h1, h2⟩ := hwins _ hmem
      refine ⟨t, ht, hts, ?_, ?_⟩ <;> rw [← hbest.1]
      · exact h1
      · exact h2
  refine ⟨hwins, hseg, ?_⟩
  obtain ⟨t, ht, hts, h1, h2⟩ := hseg
  intro u hu hne hover
  have hd := hdisj t ht u hu (fun he => hne (he.symm.trans hts))
  rcases hd with hd | hd
  · linarith [hover.1, hover.2]
  · linarith [hover.1, hover.2]

set_option maxRecDepth 4000 in
theorem diarization_gating_witness :
    (∀ w ∈ speakerWindows defaultConfig ⟨[⟨"A", 0, 10⟩, ⟨"B", 10, 20⟩]⟩ "A",
      ∃ t ∈ ([⟨"A", 0, 10⟩, ⟨"B", 10, 20⟩] : List SpeakerTurn), t.speaker = "A" ∧
        t.start ≤ w.start ∧ w.start + w.len ≤ t.stop) ∧
    (∃ t ∈ ([⟨"A", 0, 10⟩, ⟨"B", 10, 20⟩] : List SpeakerTurn), t.speaker = "A" ∧
      t.start ≤ (Segment.mk 0 3 (3/5) (some "A")).start_time ∧
      (Segment.mk 0 3 (3/5) (some "A")).end_time ≤ t.stop) ∧
    (∀ u ∈ ([⟨"A", 0, 10⟩, ⟨"B", 10, 20⟩] : List SpeakerTurn), u.speaker ≠ "A" →
      ¬ ((Segment.mk 0 3 (3/5) (some "A")).start_time < u.stop ∧
        u.start < (Segment.mk 0 3 (3/5) (some "A")).end_time)) :=
  diarization_gating defaultConfig [] ⟨[⟨"A", 0, 10⟩, ⟨"B", 10, 20⟩]⟩ "A"
    ⟨0, 3, 3/5, some "A"⟩ false (by with_unfolding_all decide)
    (by with_unfolding_all decide)

theorem selectRange_short (cfg : PipelineConfig) (frames : List FeatureFrame) {d : Rat}
    (hd : d < cfg.min_duration) :
    selectRange cfg frames d =
      ((0, d), min (scoreWindow cfg frames ⟨0, d⟩) cfg.underLengthCap, true) := by
  unfold selectRange
  rw [if_pos hd]

theorem selectRange_of_long (cfg : PipelineConfig) (frames : List FeatureFrame) {d : Rat}
    (hmm : cfg.min_duration ≤ cfg.max_duration) (hd : cfg.min_duration < d) :
    cfg.min_duration ≤ (selectRange cfg frames d).1.2 - (selectRange cfg frames d).1.1 ∧
      (selectRange cfg frames d).1.2 - (selectRange cfg frames d).1.1 ≤ cfg.max_duration := by
  unfold selectRange
  rw [if_neg (not_lt.mpr (le_of_lt hd))]
  have hb := @windowsInRegion_base_mem cfg 0 d hmm (by linarith)
  cases hc : windowsInRegion cfg 0 d with
  | nil =>
    rw [hc] at hb
    exact absurd hb (List.not_mem_nil _)
  | cons c cs =>
    simp only [selectFromCandidates]
    have hmem : bestWindow cfg frames c cs ∈ windowsInRegion cfg 0 d := by
      rw [hc]
      exact bestWindow_mem cfg frames c cs
    have hv := mem_windowsInRegion hmem
    have he : (bestWindow cfg frames c cs).start + (bestWindow cfg frames c cs).len -
        (bestWindow cfg frames c cs).start = (bestWindow cfg frames c cs).len := by ring
    rw [he]
    exact ⟨hv.1, hv.2.1⟩

theorem selectRange_quality_bounds (cfg : PipelineConfig) (frames : List FeatureFrame)
    (d : Rat) (hcap : 0 ≤ cfg.underLengthCap) :
    0 ≤ (selectRange cfg frames d).2.1 ∧ (selectRange cfg frames d).2.1 ≤ 1 := by
  unfold selectRange
  split
  · exact ⟨le_min (scoreWindow_nonneg _ _ _) hcap,
      le_trans (min_le_left _ _) (scoreWindow_le_one _ _ _)⟩
  · cases hc : windowsInRegion cfg 0 d with
    | nil =>
      simp only [selectFromCandidates]
      exact ⟨le_min (scoreWindow_nonneg _ _ _) hcap,
        le_trans (min_le_left _ _) (scoreWindow_le_one _ _ _)⟩
    | cons c cs =>
      simp only [selectFromCandidates]
      exact ⟨scoreWindow_nonneg _ _ _, scoreWindow_le_one _ _ _⟩

/-- C1: for every valid input clip whose duration exceeds `min_duration`
(under a well-formed configuration, default 3–7 s), `preprocess_for_cloning`
returns a result whose `selected_range` has a length inside
`[min_duration, max_duration]` and whose `quality_score` lies in `[0, 1]`. -/
theorem preprocess_range_and_quality (cfg : PipelineConfig) (samples : List Int)
    (rate : Nat) (denoise : Bool) (strength : Rat) (outcome : DenoiseOutcome)
    (hwf : ConfigWF cfg) (hdec : decodeOk cfg samples rate = true)
    (hd : cfg.min_duration < (mkClip samples rate).duration_seconds) :
    ∃ res, preprocess_for_cloning cfg samples rate denoise strength outcome =
        Except.ok res ∧
      cfg.min_duration ≤ res.selected_range.2 - res.selected_range.1 ∧
      res.selected_range.2 - res.selected_range.1 ≤ cfg.max_duration ∧
      0 ≤ res.quality_score ∧ res.quality_score ≤ 1 := by
  refine ⟨pipelineOutput cfg samples rate denoise strength outcome, ?_, ?_, ?_, ?_, ?_⟩
  · unfold preprocess_for_cloning
    rw [if_pos hdec]
  · have h := selectRange_of_long cfg (clipFrames cfg samples rate) hwf.2.1 hd
    simpa [pipelineOutput] using h.1
  · have h := selectRange_of_long cfg (clipFrames cfg samples rate) hwf.2.1 hd
    simpa [pipelineOutput] using h.2
  · have h := selectRange_quality_bounds cfg (clipFrames cfg samples rate)
      (mkClip samples rate).duration_seconds hwf.2.2.2.2.2
    simpa [pipelineOutput] using h.1
  · have h := selectRange_quality_bounds cfg (clipFrames cfg samples rate)
      (mkClip samples rate).duration_seconds hwf.2.2.2.2.2
    simpa [pipelineOutput] using h.2

/-- C2: feature extraction, scoring and the whole pipeline are deterministic
— two calls on byte-identical input PCM with identical configuration return
identical `selected_range` and `quality_score` (the model threads every
environment input explicitly; there is no hidden randomness). -/
theorem preprocess_deterministic (cfg : PipelineConfig) (s1 s2 : List Int)
    (r1 r2 : Nat) (denoise : Bool) (strength : Rat) (outcome : DenoiseOutcome)
    (hs : s1 = s2) (hr : r1 = r2) :
    preprocess_for_cloning cfg s1 r1 denoise strength outcome =
        preprocess_for_cloning cfg s2 r2 denoise strength outcome ∧
      ∀ res1 res2,
        preprocess_for_cloning cfg s1 r1 denoise strength outcome = Except.ok res1 →
        preprocess_for_cloning cfg s2 r2 denoise strength outcome = Except.ok res2 →
        res1.selected_range = res2.selected_range ∧
          res1.quality_score = res2.quality_score := by
  subst hs
  subst hr
  refine ⟨rfl, ?_⟩
  intro res1 res2 h1 h2
  rw [h1] at h2
  injection h2 with h2
  subst h2
  exact ⟨rfl, rfl⟩

/-- C3: a valid input clip shorter than `min_duration` still succeeds: the
pipeline returns a result flagged `under_length` whose `selected_range`
spans the entire input and whose quality score is capped. -/
theorem preprocess_under_length (cfg : PipelineConfig) (samples : List Int) (rate : Nat)
    (denoise : Bool) (strength : Rat) (outcome : DenoiseOutcome)
    (hwf : ConfigWF cfg) (hdec : decodeOk cfg samples rate = true)
    (hd : (mkClip samples rate).duration_seconds < cfg.min_duration) :
    ∃ res, preprocess_for_cloning cfg samples rate denoise strength outcome =
        Except.ok res ∧
      res.degraded_flags.under_length = true ∧
      res.selected_range = (0, (mkClip samples rate).duration_seconds) ∧
      0 ≤ res.quality_score ∧ res.quality_score ≤ cfg.underLengthCap := by
  refine ⟨pipelineOutput cfg samples rate denoise strength outcome, ?_, ?_, ?_, ?_, ?_⟩
  · unfold preprocess_for_cloning
    rw [if_pos hdec]
  · simp [pipelineOutput, selectRange_short cfg (clipFrames cfg samples rate) hd]
  · simp [pipelineOutput, selectRange_short cfg (clipFrames cfg samples rate) hd]
  · simp only [pipelineOutput, selectRange_short cfg (clipFrames cfg samples rate) hd]
    exact le_min (scoreWindow_nonneg _ _ _) hwf.2.2.2.2.2
  · simp only [pipelineOutput, selectRange_short cfg (clipFrames cfg samples rate) hd]
    exact min_le_right _ _

/-- C4: when the external denoising subprocess fails in any way, the
pipeline still succeeds: the result is built from the original, un-denoised
PCM, carries `degraded_flags.denoise_skipped = true`, and has the same
`selected_range` (and quality score and output bytes) as the run without
denoising; moreover only `InvalidAudioError` ever aborts a pipeline call. -/
theorem denoise_fallback :
    (∀ (cfg : PipelineConfig) (samples : List Int) (rate : Nat) (denoise : Bool)
      (strength : Rat) (outcome : DenoiseOutcome) (e : PipelineError),
      preprocess_for_cloning cfg samples rate denoise strength outcome =
        Except.error e → e = PipelineError.invalidAudio) ∧
    ∀ (cfg : PipelineConfig) (samples : List Int) (rate : Nat) (strength : Rat)
      (k : DenoiseFailureKind) (outcome2 : DenoiseOutcome),
      decodeOk cfg samples rate = true → strength ≠ 0 →
      ∃ res res2,
        preprocess_for_cloning cfg samples rate true strength (.failed k) =
            Except.ok res ∧
          preprocess_for_cloning cfg samples rate false strength outcome2 =
            Except.ok res2 ∧
          res.degraded_flags.denoise_skipped = true ∧
          res.selected_range = res2.selected_range ∧
          res.audio_bytes = res2.audio_bytes ∧
          res.quality_score = res2.quality_score := by
  constructor
  · intro cfg samples rate denoise strength outcome e h
    unfold preprocess_for_cloning at h
    split at h
    · exact absurd h (by simp)
    · injection h with h
      exact h.symm
  · intro cfg samples rate strength k outcome2 hdec hst
    refine ⟨pipelineOutput cfg samples rate true strength (.failed k),
      pipelineOutput cfg samples rate false strength outcome2, ?_, ?_, ?_, ?_, ?_, ?_⟩
    · unfold preprocess_for_cloning
      rw [if_pos hdec]
    · unfold preprocess_for_cloning
      rw [if_pos hdec]
    · simp [pipelineOutput, runDenoise, hst]
    · rfl
    · simp [pipelineOutput, runDenoise, hst]
    · rfl

/-- A small configuration for concrete evaluations: the default 3–7 s policy
window with two-sample analysis frames at a 2 Hz test rate. -/
def testConfig : PipelineConfig := { defaultConfig with frameWindow := 2, frameHop := 1 }

/-- An alternating two-level test signal, 8 samples (4 s at 2 Hz). -/
def testPCM : List Int := [100, -100, 100, -100, 100, -100, 100, -100]

/-- A short test signal, 4 samples (2 s at 2 Hz). -/
def shortPCM : List Int := [100, -100, 100, -100]

theorem preprocess_range_and_quality_witness :
    ∃ res, preprocess_for_cloning testConfig testPCM 2 false (1/2)
        (.failed .timeout) = Except.ok res ∧
      testConfig.min_duration ≤ res.selected_range.2 - res.selected_range.1 ∧
      res.selected_range.2 - res.selected_range.1 ≤ testConfig.max_duration ∧
      0 ≤ res.quality_score ∧ res.quality_score ≤ 1 :=
  preprocess_range_and_quality testConfig testPCM 2 false (1/2) (.failed .timeout)
    (by with_unfolding_all decide) (by with_unfolding_all decide)
    (by with_unfolding_all decide)

theorem preprocess_deterministic_witness :
    preprocess_for_cloning testConfig testPCM 2 true (1/2) (.success [1]) =
        preprocess_for_cloning testConfig testPCM 2 true (1/2) (.success [1]) ∧
      ∀ res1 res2,
        preprocess_for_cloning testConfig testPCM 2 true (1/2) (.success [1]) =
          Except.ok res1 →
        preprocess_for_cloning testConfig testPCM 2 true (1/2) (.success [1]) =
          Except.ok res2 →
        res1.selected_range = res2.selected_range ∧
          res1.quality_score = res2.quality_score :=
  preprocess_deterministic testConfig testPCM testPCM 2 2 true (1/2) (.success [1])
    rfl rfl

theorem preprocess_under_length_witness :
    ∃ res, preprocess_for_cloning testConfig shortPCM 2 true (1/2)
        (.success [1]) = Except.ok res ∧
      res.degraded_flags.under_length = true ∧
      res.selected_range = (0, (mkClip shortPCM 2).duration_seconds) ∧
      0 ≤ res.quality_score ∧ res.quality_score ≤ testConfig.underLengthCap :=
  preprocess_under_length testConfig shortPCM 2 true (1/2) (.success [1])
    (by with_unfolding_all decide) (by with_unfolding_all decide)
    (by with_unfolding_all decide)

theorem denoise_fallback_witness :
    ∃ res res2,
      preprocess_for_cloning testConfig testPCM 2 true (1/2) (.failed .nonzeroExit) =
          Except.ok res ∧
        preprocess_for_cloning testConfig testPCM 2 false (1/2) (.success [7]) =
          Except.ok res2 ∧
        res.degraded_flags.denoise_skipped = true ∧
        res.selected_range = res2.selected_range ∧
        res.audio_bytes = res2.audio_bytes ∧
        res.quality_score = res2.quality_score :=
  denoise_fallback.2 testConfig testPCM 2 (1/2) .nonzeroExit (.success [7])
    (by with_unfolding_all decide) (by with_unfolding_all decide)
